import Mathlib

/-!
Verification of the chain storage engine (`src/starknet/src/db/storage.rs`)
and the client stream session (`src/sdk/src/lib.rs`) against the
natural-language specification.

The storage engine is embedded shallowly: each mdbx table is an association
list, with the canonical-chain table additionally kept sorted by block number
(mdbx tables are ordered by key).  Cursor operations (`seek_exact`, `last`,
`prev`, `put`, `del`) become pure functions on those lists; the
`last`/`prev` walk of `highest_finalized_block` becomes a traversal of the
reversed sorted list.  A computation that can panic (via `expect`) returns an
`Outcome`.
-/

namespace Dna

/-- Result of a computation that may panic via `expect`. -/
inductive Outcome (α : Type) where
  | ok (a : α) : Outcome α
  | panicked (msg : String) : Outcome α
  deriving DecidableEq, Repr

/-- A Starknet field element (block hashes, addresses, event keys).
Modelled from the spec: `v1alpha2::FieldElement` is an opaque fixed-size
value; we model it as a natural number token. -/
abbrev FieldElement := Nat

/-- `GlobalBlockId`: `(number, hash)` pair identifying a block. -/
structure GlobalBlockId where
  number : Nat
  hash : FieldElement
  deriving DecidableEq, Repr

/-- Block status enumeration.  Modelled from the spec:
`{Unspecified, Pending, AcceptedOnL2, AcceptedOnL1, Rejected}` with protobuf
discriminants 0..4 (`v1alpha2::BlockStatus` is defined outside `src/`). -/
inductive BlockStatus where
  | unspecified
  | pending
  | acceptedOnL2
  | acceptedOnL1
  | rejected
  deriving DecidableEq, Repr

/-- The i32 discriminant stored for a `BlockStatus` (`status as i32`). -/
def BlockStatus.toI32 : BlockStatus → Int
  | .unspecified => 0
  | .pending => 1
  | .acceptedOnL2 => 2
  | .acceptedOnL1 => 3
  | .rejected => 4

/-- Decoding an i32 discriminant back to a status, as prost's generated
`status()` accessor does; unknown discriminants fall back to `Unspecified`.
Modelled from the spec (the accessor is generated outside `src/`). -/
def BlockStatus.fromI32 (i : Int) : BlockStatus :=
  if i = 1 then .pending
  else if i = 2 then .acceptedOnL2
  else if i = 3 then .acceptedOnL1
  else if i = 4 then .rejected
  else .unspecified

/-- Modelled from the spec: `is_finalized` holds exactly for `AcceptedOnL1`
("`AcceptedOnL1` is the finalized marker"). -/
def BlockStatus.is_finalized (s : BlockStatus) : Bool :=
  s = .acceptedOnL1

/-- The stored row of the `BlockStatus` table: `BlockStatus { status: i32 }`. -/
structure BlockStatusRow where
  status : Int
  deriving DecidableEq, Repr

/-- Opaque block header record; the engine only stores and returns it. -/
abbrev BlockHeader := Nat

/-- Opaque transaction record. -/
abbrev Transaction := Nat

/-- Opaque state-update record. -/
abbrev StateUpdate := Nat

/-- An event inside a receipt: optional emitting address plus keys.
Modelled from the spec (the record is defined by the external schema;
only `from_address` and `keys` are read by the engine). -/
structure Event where
  from_address : Option FieldElement
  keys : List FieldElement
  deriving DecidableEq, Repr

/-- Opaque transaction receipt; the engine reads only its `events`. -/
structure TransactionReceipt where
  events : List Event
  deriving DecidableEq, Repr

/-- `BlockBody`: wraps the block's transactions. -/
structure BlockBody where
  transactions : List Transaction
  deriving DecidableEq, Repr

/-- The four SipHash keys persisted with a bloom filter. -/
structure HasherKeys where
  hash0_0 : Nat
  hash0_1 : Nat
  hash1_0 : Nat
  hash1_1 : Nat
  deriving DecidableEq, Repr

/-- `RawBloom`: persisted bloom parameters. -/
structure RawBloom where
  bytes : List Nat
  bitmap_bits : Nat
  number_of_hash_functions : Nat
  hasher_keys : Option HasherKeys
  deriving DecidableEq, Repr

/-- `BlockReceipts`: receipts plus optional serialized bloom.  The prost
default (used by `unwrap_or_default` in `read_receipts`) has empty receipts
and no bloom. -/
structure BlockReceipts where
  receipts : List TransactionReceipt
  bloom : Option RawBloom
  deriving DecidableEq, Repr

instance : Inhabited BlockReceipts := ⟨⟨[], none⟩⟩

/-- `seek_exact` on an association-list table: the row stored at `k`. -/
def tableGet {κ ν : Type} [DecidableEq κ] (l : List (κ × ν)) (k : κ) :
    Option ν :=
  (l.find? (fun p => p.1 = k)).map (·.2)

/-- `seek_exact` followed by `put` on an unordered table: upsert at `k`. -/
def tablePut {κ ν : Type} [DecidableEq κ] (l : List (κ × ν)) (k : κ) (v : ν) :
    List (κ × ν) :=
  match l with
  | [] => [(k, v)]
  | (k', v') :: rest =>
    if k' = k then (k, v) :: rest else (k', v') :: tablePut rest k v

/-- Upsert into the sorted canonical-chain table, keeping keys strictly
increasing (mdbx keeps tables ordered by key). -/
def putSorted (l : List (Nat × FieldElement)) (k : Nat) (v : FieldElement) :
    List (Nat × FieldElement) :=
  match l with
  | [] => [(k, v)]
  | (k', v') :: rest =>
    if k < k' then (k, v) :: (k', v') :: rest
    else if k = k' then (k, v) :: rest
    else (k', v') :: putSorted rest k v

/-- `del` after a successful `seek_exact(k)`: remove the entry at `k`. -/
def tableDel (l : List (Nat × FieldElement)) (k : Nat) :
    List (Nat × FieldElement) :=
  l.filter (fun p => p.1 ≠ k)

/-- The six logical tables of the store. -/
structure Store where
  canonical_chain : List (Nat × FieldElement)
  block_status : List (GlobalBlockId × BlockStatusRow)
  block_header : List (GlobalBlockId × BlockHeader)
  block_body : List (GlobalBlockId × BlockBody)
  block_receipts : List (GlobalBlockId × BlockReceipts)
  state_update : List (GlobalBlockId × StateUpdate)
  deriving DecidableEq, Repr

/-- The canonical-chain table is sorted strictly by block number. -/
def ChainSorted (s : Store) : Prop :=
  s.canonical_chain.Pairwise (fun a b => a.1 < b.1)

instance (s : Store) : Decidable (ChainSorted s) := by
  unfold ChainSorted; infer_instance

/-- `highest_accepted_block`: `CanonicalChain.last()`, decoded to an id. -/
def highest_accepted_block (s : Store) : Option GlobalBlockId :=
  s.canonical_chain.getLast?.map (fun p => ⟨p.1, p.2⟩)

/-- The `last()`/`prev()` loop of `highest_finalized_block`, visiting the
canonical entries from the tip backwards (the argument is the reversed
chain).  A canonical entry with no status row hits
`expect("database is in inconsistent state.")`. -/
def hfbLoop (statusTab : List (GlobalBlockId × BlockStatusRow)) :
    List (Nat × FieldElement) → Outcome (Option GlobalBlockId)
  | [] => .ok none
  | (block_num, block_hash) :: rest =>
    let block_id : GlobalBlockId := ⟨block_num, block_hash⟩
    match tableGet statusTab block_id with
    | none => .panicked "database is in inconsistent state."
    | some row =>
      if (BlockStatus.fromI32 row.status).is_finalized then
        .ok (some block_id)
      else
        hfbLoop statusTab rest

/-- `highest_finalized_block`: walk the canonical chain backwards from the
tip, cross-looking up `BlockStatus`, returning the first finalized entry. -/
def highest_finalized_block (s : Store) : Outcome (Option GlobalBlockId) :=
  hfbLoop s.block_status s.canonical_chain.reverse

/-- `canonical_block_id(number)`: `seek_exact` on `CanonicalChain`. -/
def canonical_block_id (s : Store) (number : Nat) : Option GlobalBlockId :=
  (tableGet s.canonical_chain number).map (fun h => ⟨number, h⟩)

/-- `read_status(id)`: the decoded status stored at `id`, if any. -/
def read_status (s : Store) (id : GlobalBlockId) : Option BlockStatus :=
  (tableGet s.block_status id).map (fun row => BlockStatus.fromI32 row.status)

/-- `read_header(id)`. -/
def read_header (s : Store) (id : GlobalBlockId) : Option BlockHeader :=
  tableGet s.block_header id

/-- `read_body(id)`: the stored transactions, or `[]` when absent. -/
def read_body (s : Store) (id : GlobalBlockId) : List Transaction :=
  ((tableGet s.block_body id).map (·.transactions)).getD []

/-- `read_state_update(id)`. -/
def read_state_update (s : Store) (id : GlobalBlockId) : Option StateUpdate :=
  tableGet s.state_update id

/-- `write_status(id, status)`: upsert the i32-encoded status row. -/
def write_status (s : Store) (id : GlobalBlockId) (st : BlockStatus) : Store :=
  { s with block_status := tablePut s.block_status id ⟨st.toI32⟩ }

/-- `write_header(id, header)`. -/
def write_header (s : Store) (id : GlobalBlockId) (h : BlockHeader) : Store :=
  { s with block_header := tablePut s.block_header id h }

/-- `write_body(id, body)`. -/
def write_body (s : Store) (id : GlobalBlockId) (b : BlockBody) : Store :=
  { s with block_body := tablePut s.block_body id b }

/-- `write_state_update(id, state_update)`. -/
def write_state_update (s : Store) (id : GlobalBlockId) (u : StateUpdate) :
    Store :=
  { s with state_update := tablePut s.state_update id u }

/-- `extend_canonical_chain(id)`: upsert `(id.number ↦ id.hash)` into the
ordered canonical-chain table. -/
def extend_canonical_chain (s : Store) (id : GlobalBlockId) : Store :=
  { s with canonical_chain := putSorted s.canonical_chain id.number id.hash }

/-- `reject_block_from_canonical_chain(id)`: if the canonical entry at
`id.number` holds exactly `id.hash`, delete it and write status `Rejected`;
otherwise do nothing. -/
def reject_block_from_canonical_chain (s : Store) (id : GlobalBlockId) :
    Store :=
  match tableGet s.canonical_chain id.number with
  | none => s
  | some current_hash =>
    if current_hash = id.hash then
      write_status
        { s with canonical_chain := tableDel s.canonical_chain id.number }
        id .rejected
    else s

/-! ## Bloom filter (external `bloomfilter` crate, modelled from the spec) -/

/-- The two SipHash key pairs of a bloom filter. -/
abbrev SipKeys := (Nat × Nat) × (Nat × Nat)

/-- Modelled from the spec: the external `bloomfilter` crate's
`Bloom<FieldElement>`: a bit vector, a number of hash functions, and two
SipHash-1-3 key pairs fixed at construction time. -/
structure Bloom where
  bitmap : List Bool
  k : Nat
  sip_keys : SipKeys
  deriving DecidableEq, Repr

/-- The bit index probed by the `i`-th hash function for item `x`: the hash
value reduced modulo the bitmap width.  The concrete SipHash-1-3 computation
is a parameter `hf` of the model. -/
def Bloom.bitIndex (hf : Nat → SipKeys → FieldElement → Nat) (b : Bloom)
    (i : Nat) (x : FieldElement) : Nat :=
  hf i b.sip_keys x % b.bitmap.length

/-- Set the bits at the given indices (used by `set`). -/
def Bloom.setBits (b : Bloom) (js : List Nat) : Bloom :=
  { b with bitmap := js.foldl (fun bm j => bm.set j true) b.bitmap }

/-- Modelled from the spec: `Bloom::set(x)` sets, for each of the `k` hash
functions, the bit addressed by that hash of `x`. -/
def Bloom.insert (hf : Nat → SipKeys → FieldElement → Nat) (b : Bloom)
    (x : FieldElement) : Bloom :=
  b.setBits ((List.range b.k).map (fun i => b.bitIndex hf i x))

/-- Modelled from the spec: `Bloom::contains(x)` checks that every bit
addressed by the `k` hashes of `x` is set. -/
def Bloom.contains (hf : Nat → SipKeys → FieldElement → Nat) (b : Bloom)
    (x : FieldElement) : Bool :=
  (List.range b.k).all (fun i => b.bitmap.getD (b.bitIndex hf i x) false)

/-- Modelled from the spec: `Bloom::new(bits, items)` allocates a zeroed
bitmap of `bits` bits; the number of hash functions is derived internally
from both size parameters (`kChoice`) and the sip keys are generated at
construction time (`keys`); both are parameters of the model. -/
def Bloom.new (bits items : Nat) (kChoice : Nat → Nat → Nat)
    (keys : SipKeys) : Bloom :=
  { bitmap := List.replicate bits false, k := kChoice bits items
    sip_keys := keys }

/-- The byte with bits `b0..b7`, most significant first (the `bit_vec`
byte layout used by the crate's `bitmap()`). -/
def byteOfBits (b0 b1 b2 b3 b4 b5 b6 b7 : Bool) : Nat :=
  (cond b0 128 0) + (cond b1 64 0) + (cond b2 32 0) + (cond b3 16 0) +
  (cond b4 8 0) + (cond b5 4 0) + (cond b6 2 0) + (cond b7 1 0)

/-- A trailing byte holding fewer than 8 bits, padded with zeros. -/
def padByte (l : List Bool) : Nat :=
  byteOfBits (l.getD 0 false) (l.getD 1 false) (l.getD 2 false)
    (l.getD 3 false) (l.getD 4 false) (l.getD 5 false) (l.getD 6 false)
    (l.getD 7 false)

/-- Pack a bit vector into bytes, 8 bits per byte, most significant first.
Modelled from the spec: `Bloom::bitmap()` serializes the bit vector. -/
def packBits : List Bool → List Nat
  | [] => []
  | b0 :: b1 :: b2 :: b3 :: b4 :: b5 :: b6 :: b7 :: rest =>
    byteOfBits b0 b1 b2 b3 b4 b5 b6 b7 :: packBits rest
  | l => [padByte l]

/-- The 8 bits of a byte, most significant first. -/
def byteToBits (b : Nat) : List Bool :=
  [b.testBit 7, b.testBit 6, b.testBit 5, b.testBit 4,
   b.testBit 3, b.testBit 2, b.testBit 1, b.testBit 0]

/-- Unpack a byte buffer into its bit vector. -/
def unpackBits (bytes : List Nat) : List Bool :=
  bytes.flatMap byteToBits

/-- `From<Bloom> for RawBloom` (src): record the bitmap bytes, bit count,
hash-function count and both sip key pairs. -/
def Bloom.toRaw (b : Bloom) : RawBloom :=
  { bytes := packBits b.bitmap
    bitmap_bits := b.bitmap.length
    number_of_hash_functions := b.k
    hasher_keys := some
      ⟨b.sip_keys.1.1, b.sip_keys.1.2, b.sip_keys.2.1, b.sip_keys.2.2⟩ }

/-- `From<RawBloom> for Option<Bloom>` (src): empty `bytes` or missing
`hasher_keys` yield no filter; otherwise `Bloom::from_existing` rebuilds the
filter from the recorded bytes, bit count, hash count and keys (modelled
from the spec: reconstruction is exact). -/
def RawBloom.toBloom (raw : RawBloom) : Option Bloom :=
  if raw.bytes.isEmpty then none
  else
    match raw.hasher_keys with
    | none => none
    | some hk =>
      some
        { bitmap := (unpackBits raw.bytes).take raw.bitmap_bits
          k := raw.number_of_hash_functions
          sip_keys := ((hk.hash0_0, hk.hash0_1), (hk.hash1_0, hk.hash1_1)) }

/-- `read_receipts(id)`: the stored receipts (or `[]`) and the bloom rebuilt
from the persisted `RawBloom`. -/
def read_receipts (s : Store) (id : GlobalBlockId) :
    List TransactionReceipt × Option Bloom :=
  let block_receipts_data := (tableGet s.block_receipts id).getD default
  (block_receipts_data.receipts,
   block_receipts_data.bloom.bind RawBloom.toBloom)

/-- The bloom filter computed by `write_receipts`: 256 bits, item estimate
`2·len(receipts)+1`; for each receipt, for each event, insert
`from_address` when set, then each of the event's `keys`. -/
def receiptsBloom (hf : Nat → SipKeys → FieldElement → Nat)
    (kChoice : Nat → Nat → Nat) (keys : SipKeys)
    (receipts : List TransactionReceipt) : Bloom :=
  let estimate_items := receipts.length * 2 + 1
  let bloom0 := Bloom.new 256 estimate_items kChoice keys
  receipts.foldl (fun bloom receipt =>
    receipt.events.foldl (fun bloom event =>
      let bloom :=
        match event.from_address with
        | some addr => bloom.insert hf addr
        | none => bloom
      event.keys.foldl (fun bloom key => bloom.insert hf key) bloom)
      bloom) bloom0

/-- `write_receipts(id, receipts)`: compute the bloom filter over the
receipts' events and upsert `BlockReceipts { receipts, bloom: Some(..) }`. -/
def write_receipts (hf : Nat → SipKeys → FieldElement → Nat)
    (kChoice : Nat → Nat → Nat) (keys : SipKeys)
    (s : Store) (id : GlobalBlockId) (receipts : List TransactionReceipt) :
    Store :=
  let body : BlockReceipts :=
    ⟨receipts, some (receiptsBloom hf kChoice keys receipts).toRaw⟩
  { s with block_receipts := tablePut s.block_receipts id body }

/-- The elements `write_receipts` inserts into the bloom, in insertion
order: per receipt, per event, the optional `from_address` then the keys. -/
def insertedElements (receipts : List TransactionReceipt) :
    List FieldElement :=
  receipts.flatMap (fun receipt =>
    receipt.events.flatMap (fun event =>
      event.from_address.toList ++ event.keys))

/-! ## Client stream session (`src/sdk/src/lib.rs`) -/

/-- Modelled from the spec: the protocol `Cursor` carries chain-specific
block identification; its prost default has zeroed fields. -/
structure Cursor where
  order_key : Nat
  unique_key : List Nat
  deriving DecidableEq, Repr

instance : Inhabited Cursor := ⟨⟨0, []⟩⟩

/-- Modelled from the spec: `DataFinality` with protobuf discriminants
0..3: `{Unspecified, Pending, AcceptedOnL2, AcceptedOnL1}`. -/
inductive DataFinality where
  | unspecified
  | pending
  | acceptedOnL2
  | acceptedOnL1
  deriving DecidableEq, Repr

instance : Inhabited DataFinality := ⟨.unspecified⟩

/-- The i32 discriminant of a finality value (`f as i32`). -/
def DataFinality.toI32 : DataFinality → Int
  | .unspecified => 0
  | .pending => 1
  | .acceptedOnL2 => 2
  | .acceptedOnL1 => 3

/-- Modelled from the spec: prost's `DataFinality::from_i32`, `none` on a
discriminant that names no variant. -/
def DataFinality.from_i32 (i : Int) : Option DataFinality :=
  if i = 0 then some .unspecified
  else if i = 1 then some .pending
  else if i = 2 then some .acceptedOnL2
  else if i = 3 then some .acceptedOnL1
  else none

/-- Modelled from the spec: `Configuration<F>` carries `batch_size`,
`starting_cursor`, `finality` and the typed `filter` (its declaration lives
in `src/sdk/src/config.rs`, outside the provided sources; fields are those
read by `poll_next` and §6). -/
structure Configuration (F : Type) where
  batch_size : Nat
  starting_cursor : Option Cursor
  finality : Option DataFinality
  filter : F
  deriving DecidableEq, Repr

/-- Modelled from the spec: the outbound `StreamDataRequest` message. -/
structure StreamDataRequest where
  stream_id : Option Nat
  batch_size : Option Nat
  starting_cursor : Option Cursor
  finality : Option Int
  filter : List Nat
  deriving DecidableEq, Repr

/-- Modelled from the spec: the `Data` message of a `StreamDataResponse`:
a batch of opaque byte buffers plus cursors and a raw finality i32. -/
structure DataPayload where
  data : List (List Nat)
  cursor : Option Cursor
  end_cursor : Option Cursor
  finality : Int
  deriving DecidableEq, Repr

/-- Modelled from the spec: the `Invalidate` message. -/
structure InvalidatePayload where
  cursor : Option Cursor
  deriving DecidableEq, Repr

/-- Modelled from the spec: `stream_data_response::Message`. -/
inductive ResponseMessage where
  | data (d : DataPayload)
  | invalidate (iv : InvalidatePayload)
  | heartbeat
  deriving DecidableEq, Repr

/-- Modelled from the spec: the inbound `StreamDataResponse` envelope. -/
structure StreamDataResponse where
  stream_id : Nat
  message : Option ResponseMessage
  deriving DecidableEq, Repr

/-- A typed message produced by the stream (`DataMessage<D>`). -/
inductive DataMessage (D : Type) where
  | data (cursor : Option Cursor) (end_cursor : Cursor)
      (finality : DataFinality) (batch : List D)
  | invalidate (cursor : Option Cursor)
  deriving DecidableEq, Repr

/-- The error cases surfaced by `poll_next`: an RPC status error from the
server, or a failed `try_send` of an outbound request. -/
inductive StreamError where
  | status (code : Nat)
  | sendFailed
  deriving DecidableEq, Repr

/-- `Poll` from the task model: ready with a value, or pending. -/
inductive Poll (α : Type) where
  | ready (a : α)
  | pending
  deriving DecidableEq, Repr

/-- Everything one call of `poll_next` does: its return value, the stream id
afterwards, the request sent on the outbound queue (if any), and whether the
task re-scheduled itself (`wake_by_ref`). -/
structure PollOut (D : Type) where
  result : Poll (Option (Except StreamError (DataMessage D)))
  stream_id : Nat
  sent : Option StreamDataRequest
  woke : Bool

/-- `u64` modulus for the wrapping `stream_id` increment. -/
def U64_MOD : Nat := 2 ^ 64

/-- One call of `DataStream::poll_next`, as a pure function of the session's
`stream_id` and of the outcomes of the two queue polls (configuration queue
first, then the RPC response stream).  `dec` is `D::decode` (`none` on
decode failure), `encF` is `F::encode_to_vec`, `trySendOk` tells whether
`try_send` on the outbound queue succeeds. -/
def pollNext {F D : Type} (dec : List Nat → Option D) (encF : F → List Nat)
    (stream_id : Nat)
    (cfgPoll : Poll (Option (Configuration F)))
    (innerPoll : Poll (Option (Except Nat StreamDataResponse)))
    (trySendOk : Bool) : PollOut D :=
  match cfgPoll with
  | .ready none => ⟨.ready none, stream_id, none, false⟩
  | .ready (some configuration) =>
    let sid := (stream_id + 1) % U64_MOD
    let request : StreamDataRequest :=
      { stream_id := some sid
        batch_size := some configuration.batch_size
        starting_cursor := configuration.starting_cursor
        finality := configuration.finality.map (fun f => f.toI32)
        filter := encF configuration.filter }
    if trySendOk then ⟨.pending, sid, some request, true⟩
    else ⟨.ready (some (.error .sendFailed)), sid, none, false⟩
  | .pending =>
    match innerPoll with
    | .ready none => ⟨.ready none, stream_id, none, false⟩
    | .pending => ⟨.pending, stream_id, none, false⟩
    | .ready (some (.error e)) =>
      ⟨.ready (some (.error (.status e))), stream_id, none, false⟩
    | .ready (some (.ok response)) =>
      if response.stream_id ≠ stream_id then
        ⟨.pending, stream_id, none, true⟩
      else
        match response.message with
        | none => ⟨.pending, stream_id, none, true⟩
        | some (.data d) =>
          let batch := (d.data.map (fun b => dec b)).filterMap (fun b => b)
          ⟨.ready (some (.ok (.data d.cursor (d.end_cursor.getD default)
            ((DataFinality.from_i32 d.finality).getD default) batch))),
           stream_id, none, false⟩
        | some (.invalidate iv) =>
          ⟨.ready (some (.ok (.invalidate iv.cursor))), stream_id, none,
           false⟩
        | some .heartbeat => ⟨.pending, stream_id, none, true⟩

/-- One configuration-drawing poll, accumulating the sent requests: the
session (with the response stream pending and `try_send` succeeding) draws
`cfg`, and the request it enqueues is appended to the log. -/
def configStepAcc {F D : Type} (dec : List Nat → Option D)
    (encF : F → List Nat) (acc : Nat × List StreamDataRequest)
    (cfg : Configuration F) : Nat × List StreamDataRequest :=
  let out := pollNext (D := D) dec encF acc.1 (.ready (some cfg)) .pending
    true
  (out.stream_id, acc.2 ++ out.sent.toList)

/-- Drive the session from its initial `stream_id = 0` through a list of
configurations, each drawn in its own `poll_next` call; collects the
requests sent. -/
def processConfigs {F D : Type} (dec : List Nat → Option D)
    (encF : F → List Nat) (cfgs : List (Configuration F)) :
    Nat × List StreamDataRequest :=
  cfgs.foldl (configStepAcc (D := D) dec encF) (0, [])

/-! ## Table lemmas -/

theorem tableGet_tablePut_self {κ ν : Type} [DecidableEq κ]
    (l : List (κ × ν)) (k : κ) (v : ν) :
    tableGet (tablePut l k v) k = some v := by
  induction l with
  | nil => simp [tablePut, tableGet]
  | cons p rest ih =>
    obtain ⟨k', v'⟩ := p
    by_cases h : k' = k
    · subst h
      simp [tablePut, tableGet]
    · simp only [tablePut, if_neg h]
      simpa [tableGet, List.find?_cons, h] using ih

theorem tableGet_tablePut_other {κ ν : Type} [DecidableEq κ]
    (l : List (κ × ν)) (k k' : κ) (v : ν) (hne : k' ≠ k) :
    tableGet (tablePut l k v) k' = tableGet l k' := by
  induction l with
  | nil => simp [tablePut, tableGet, Ne.symm hne]
  | cons p rest ih =>
    obtain ⟨k0, v0⟩ := p
    by_cases h : k0 = k
    · subst h
      simp [tablePut, tableGet, List.find?_cons, Ne.symm hne]
    · simp only [tablePut, if_neg h]
      by_cases h' : k0 = k'
      · subst h'
        simp [tableGet, List.find?_cons]
      · simpa [tableGet, List.find?_cons, h'] using ih

theorem tableGet_tableDel_self (l : List (Nat × FieldElement)) (k : Nat) :
    tableGet (tableDel l k) k = none := by
  induction l with
  | nil => simp [tableDel, tableGet]
  | cons p rest ih =>
    obtain ⟨k', v'⟩ := p
    by_cases h : k' = k
    · subst h
      simp only [tableDel, List.filter_cons] at ih ⊢
      simpa using ih
    · have hstep : tableDel ((k', v') :: rest) k = (k', v') :: tableDel rest k := by
        simp [tableDel, List.filter_cons, h]
      rw [hstep]
      simpa [tableGet, List.find?_cons, h] using ih

theorem putSorted_gt (l : List (Nat × FieldElement)) (k : Nat)
    (v : FieldElement) (hl : ∀ p ∈ l, p.1 < k) :
    putSorted l k v = l ++ [(k, v)] := by
  induction l with
  | nil => rfl
  | cons p rest ih =>
    obtain ⟨k', v'⟩ := p
    have hk' : k' < k := hl (k', v') (List.mem_cons_self _ _)
    simp only [putSorted, if_neg (Nat.not_lt.mpr (Nat.le_of_lt hk')),
      if_neg (Nat.ne_of_gt hk'), List.cons_append]
    exact congrArg _ (ih (fun p hp => hl p (List.mem_cons_of_mem _ hp)))

theorem pairwise_getLast_max (l : List (Nat × FieldElement))
    (t : Nat × FieldElement)
    (hs : l.Pairwise (fun a b => a.1 < b.1)) (ht : l.getLast? = some t) :
    ∀ p ∈ l, p = t ∨ p.1 < t.1 := by
  induction l with
  | nil => simp at ht
  | cons x rest ih =>
    intro p hp
    match rest, ht with
    | [], ht =>
      simp at ht hp
      subst ht
      exact Or.inl hp
    | y :: rest', ht =>
      have ht' : (y :: rest').getLast? = some t := by
        simpa [List.getLast?_cons_cons] using ht
      rcases List.mem_cons.mp hp with hpx | hpr
      · subst hpx
        right
        have htm : t ∈ y :: rest' := List.mem_of_mem_getLast? ht'
        exact (List.pairwise_cons.mp hs).1 t htm
      · exact ih (List.pairwise_cons.mp hs).2 ht' p hpr

/-! ## C1: missing status row makes `highest_finalized_block` panic -/

/-- A store holding one canonical entry `(0 ↦ 7)` and no status row. -/
def c1Store : Store := ⟨[(0, 7)], [], [], [], [], []⟩

/-- C1: the claim states that on a store with a canonical entry whose id has
no `BlockStatus` row, `highest_finalized_block` (with
`highest_accepted_block` succeeding) returns a fatal error value rather than
panicking.  The code instead panics: the status lookup result is unwrapped
with `expect("database is in inconsistent state.")`.  This theorem evaluates
the embedded code at the failing input: `highest_accepted_block` succeeds,
and `highest_finalized_block` panics instead of returning an error. -/
theorem highest_finalized_block_panics_on_missing_status :
    highest_accepted_block c1Store = some ⟨0, 7⟩ ∧
    highest_finalized_block c1Store =
      .panicked "database is in inconsistent state." := by
  constructor <;> rfl

/-! ## C2: reorg correctness of `reject_block_from_canonical_chain` -/

/-- C2: on a store whose canonical entry at height `n` is exactly `h` (with
status `AcceptedOnL2`), `reject_block_from_canonical_chain ⟨n, h⟩` makes
`canonical_block_id n` return `none`, `read_status ⟨n, h⟩` return
`some Rejected`, and leaves the header/body/receipts/state-update reads for
`⟨n, h⟩` unchanged; if the canonical entry at height `n` holds a different
hash, the call changes nothing. -/
theorem reject_block_from_canonical_chain_correct (s : Store) (n : Nat)
    (h : FieldElement) :
    (tableGet s.canonical_chain n = some h →
     read_status s ⟨n, h⟩ = some .acceptedOnL2 →
     (canonical_block_id (reject_block_from_canonical_chain s ⟨n, h⟩) n =
        none ∧
      read_status (reject_block_from_canonical_chain s ⟨n, h⟩) ⟨n, h⟩ =
        some .rejected ∧
      read_header (reject_block_from_canonical_chain s ⟨n, h⟩) ⟨n, h⟩ =
        read_header s ⟨n, h⟩ ∧
      read_body (reject_block_from_canonical_chain s ⟨n, h⟩) ⟨n, h⟩ =
        read_body s ⟨n, h⟩ ∧
      read_receipts (reject_block_from_canonical_chain s ⟨n, h⟩) ⟨n, h⟩ =
        read_receipts s ⟨n, h⟩ ∧
      read_state_update (reject_block_from_canonical_chain s ⟨n, h⟩) ⟨n, h⟩ =
        read_state_update s ⟨n, h⟩)) ∧
    (∀ h', tableGet s.canonical_chain n = some h' → h' ≠ h →
      reject_block_from_canonical_chain s ⟨n, h⟩ = s) := by
  constructor
  · intro hc _
    have hs' : reject_block_from_canonical_chain s ⟨n, h⟩ =
        write_status
          { s with canonical_chain := tableDel s.canonical_chain n }
          ⟨n, h⟩ .rejected := by
      simp [reject_block_from_canonical_chain, hc]
    rw [hs']
    refine ⟨?_, ?_, rfl, rfl, rfl, rfl⟩
    · simp [canonical_block_id, write_status, tableGet_tableDel_self]
    · simp [read_status, write_status, tableGet_tablePut_self]
      rfl
  · intro h' hc' hne
    simp [reject_block_from_canonical_chain, hc', hne]

/-- A store with one canonical block `(5, 9)`, status `AcceptedOnL2`, and a
header, body, receipts and state-update row. -/
def c2Store : Store :=
  ⟨[(5, 9)], [(⟨5, 9⟩, ⟨2⟩)], [(⟨5, 9⟩, 11)], [(⟨5, 9⟩, ⟨[3]⟩)],
   [(⟨5, 9⟩, ⟨[], none⟩)], [(⟨5, 9⟩, 13)]⟩

theorem reject_block_from_canonical_chain_correct_witness :
    canonical_block_id (reject_block_from_canonical_chain c2Store ⟨5, 9⟩) 5 =
      none ∧
    read_status (reject_block_from_canonical_chain c2Store ⟨5, 9⟩) ⟨5, 9⟩ =
      some .rejected :=
  ⟨((reject_block_from_canonical_chain_correct c2Store 5 9).1 (by decide)
      (by decide)).1,
   ((reject_block_from_canonical_chain_correct c2Store 5 9).1 (by decide)
      (by decide)).2.1⟩

/-! ## C6: `highest_accepted_block` and tip monotonicity -/

/-- C6: `highest_accepted_block` is `none` exactly when the canonical chain
is empty, and after `extend_canonical_chain ⟨n, h⟩` with `n` above the prior
tip's number, `highest_accepted_block` is `some ⟨n, h⟩`. -/
theorem highest_accepted_block_tip (s : Store) (n : Nat)
    (h : FieldElement) :
    (highest_accepted_block s = none ↔ s.canonical_chain = []) ∧
    (ChainSorted s →
     (∀ t, highest_accepted_block s = some t → t.number < n) →
     highest_accepted_block (extend_canonical_chain s ⟨n, h⟩) =
       some ⟨n, h⟩) := by
  constructor
  · simp [highest_accepted_block, List.getLast?_eq_none_iff]
  · intro hs htip
    have hall : ∀ p ∈ s.canonical_chain, p.1 < n := by
      intro p hp
      match hlast : s.canonical_chain.getLast? with
      | none =>
        rw [List.getLast?_eq_none_iff] at hlast
        rw [hlast] at hp
        simp at hp
      | some t0 =>
        have h0 : highest_accepted_block s = some ⟨t0.1, t0.2⟩ := by
          simp [highest_accepted_block, hlast]
        have ht0 : t0.1 < n := htip ⟨t0.1, t0.2⟩ h0
        rcases pairwise_getLast_max s.canonical_chain t0 hs hlast p hp with
          hpt | hlt
        · rw [hpt]; exact ht0
        · exact Nat.lt_trans hlt ht0
    simp [highest_accepted_block, extend_canonical_chain,
      putSorted_gt s.canonical_chain n h hall, List.getLast?_concat]

/-! ## C3: correctness of the finalized walk -/

/-- The test applied to a canonical entry during the finalized walk: it has
a status row and that row decodes to a finalized status. -/
def finEntry (statusTab : List (GlobalBlockId × BlockStatusRow))
    (p : Nat × FieldElement) : Bool :=
  match tableGet statusTab ⟨p.1, p.2⟩ with
  | some row => (BlockStatus.fromI32 row.status).is_finalized
  | none => false

theorem finEntry_iff (s : Store) (p : Nat × FieldElement) :
    finEntry s.block_status p = true ↔
      read_status s ⟨p.1, p.2⟩ = some .acceptedOnL1 := by
  unfold finEntry read_status
  match h : tableGet s.block_status ⟨p.1, p.2⟩ with
  | none => simp
  | some row => simp [BlockStatus.is_finalized]

theorem hfbLoop_eq_find (st : List (GlobalBlockId × BlockStatusRow))
    (L : List (Nat × FieldElement))
    (hc : ∀ p ∈ L, (tableGet st ⟨p.1, p.2⟩).isSome) :
    hfbLoop st L =
      .ok ((L.find? (finEntry st)).map (fun p => ⟨p.1, p.2⟩)) := by
  induction L with
  | nil => rfl
  | cons p rest ih =>
    obtain ⟨num, hsh⟩ := p
    have hp := hc (num, hsh) (List.mem_cons_self _ _)
    match hrow : tableGet st ⟨num, hsh⟩ with
    | none => rw [hrow] at hp; simp at hp
    | some row =>
      match hfin : (BlockStatus.fromI32 row.status).is_finalized with
      | true =>
        have hfe : finEntry st (num, hsh) = true := by
          simp [finEntry, hrow, hfin]
        simp [hfbLoop, hrow, hfin, List.find?_cons, hfe]
      | false =>
        have hfe : finEntry st (num, hsh) = false := by
          simp [finEntry, hrow, hfin]
        have hstep : hfbLoop st ((num, hsh) :: rest) = hfbLoop st rest := by
          simp [hfbLoop, hrow, hfin]
        rw [hstep, ih (fun q hq => hc q (List.mem_cons_of_mem _ hq))]
        simp [List.find?_cons, hfe]

/-- C3: on a store whose every canonical entry has a status row,
`highest_finalized_block` returns (without panicking) `some` of the
canonical entry of greatest block number whose status is `AcceptedOnL1`,
and `none` exactly when no canonical entry has status `AcceptedOnL1`. -/
theorem highest_finalized_block_correct (s : Store)
    (hs : ChainSorted s)
    (hc : ∀ p ∈ s.canonical_chain,
      (tableGet s.block_status ⟨p.1, p.2⟩).isSome) :
    ∃ r, highest_finalized_block s = .ok r ∧
      (r = none ↔
        ∀ p ∈ s.canonical_chain,
          ¬ read_status s ⟨p.1, p.2⟩ = some .acceptedOnL1) ∧
      (∀ id, r = some id →
        (id.number, id.hash) ∈ s.canonical_chain ∧
        read_status s ⟨id.number, id.hash⟩ = some .acceptedOnL1 ∧
        ∀ p ∈ s.canonical_chain,
          read_status s ⟨p.1, p.2⟩ = some .acceptedOnL1 →
          p.1 ≤ id.number) := by
  refine ⟨((s.canonical_chain.filter (finEntry s.block_status)).getLast?).map
    (fun p => ⟨p.1, p.2⟩), ?_, ?_, ?_⟩
  · unfold highest_finalized_block
    rw [hfbLoop_eq_find s.block_status s.canonical_chain.reverse
      (fun p hp => hc p (List.mem_reverse.mp hp))]
    have hfind : s.canonical_chain.reverse.find? (finEntry s.block_status) =
        (s.canonical_chain.filter (finEntry s.block_status)).getLast? := by
      rw [← List.filter_head? (finEntry s.block_status)
        s.canonical_chain.reverse]
      rw [List.filter_reverse, List.head?_reverse]
    rw [hfind]
  · rw [Option.map_eq_none', List.getLast?_eq_none_iff,
      List.filter_eq_nil_iff]
    constructor
    · intro hnil p hp hst
      exact hnil p hp ((finEntry_iff s p).mpr hst)
    · intro hno p hp hfe
      exact hno p hp ((finEntry_iff s p).mp hfe)
  · intro id hid
    rw [Option.map_eq_some'] at hid
    obtain ⟨p, hlast, hpid⟩ := hid
    have hpmem := List.mem_of_mem_getLast? hlast
    have hpchain := (List.mem_filter.mp hpmem).1
    have hpfin := (List.mem_filter.mp hpmem).2
    have hnum : id.number = p.1 := by rw [← hpid]
    have hhash : id.hash = p.2 := by rw [← hpid]
    refine ⟨?_, ?_, ?_⟩
    · rw [hnum, hhash]
      exact hpchain
    · rw [hnum, hhash]
      exact (finEntry_iff s p).mp hpfin
    · intro q hq hqst
      have hqfil : q ∈ s.canonical_chain.filter (finEntry s.block_status) :=
        List.mem_filter.mpr ⟨hq, (finEntry_iff s q).mpr hqst⟩
      have hsorted :
          (s.canonical_chain.filter (finEntry s.block_status)).Pairwise
            (fun a b => a.1 < b.1) :=
        hs.sublist (List.filter_sublist s.canonical_chain)
      rcases pairwise_getLast_max _ p hsorted hlast q hqfil with hqp | hlt
      · rw [hqp, hnum]
      · rw [hnum]
        exact Nat.le_of_lt hlt

/-- A store with three canonical blocks, of which exactly the lowest,
`(1, 10)`, is `AcceptedOnL1`. -/
def c3Store : Store :=
  ⟨[(1, 10), (2, 20), (3, 30)],
   [(⟨1, 10⟩, ⟨3⟩), (⟨2, 20⟩, ⟨2⟩), (⟨3, 30⟩, ⟨2⟩)], [], [], [], []⟩

theorem highest_finalized_block_correct_witness :
    ∃ r, highest_finalized_block c3Store = .ok r ∧
      (r = none ↔
        ∀ p ∈ c3Store.canonical_chain,
          ¬ read_status c3Store ⟨p.1, p.2⟩ = some .acceptedOnL1) ∧
      (∀ id, r = some id →
        (id.number, id.hash) ∈ c3Store.canonical_chain ∧
        read_status c3Store ⟨id.number, id.hash⟩ = some .acceptedOnL1 ∧
        ∀ p ∈ c3Store.canonical_chain,
          read_status c3Store ⟨p.1, p.2⟩ = some .acceptedOnL1 →
          p.1 ≤ id.number) :=
  highest_finalized_block_correct c3Store (by decide) (by decide)

/-- A store with canonical chain `[(3, 4)]`. -/
def c6Store : Store := ⟨[(3, 4)], [], [], [], [], []⟩

theorem highest_accepted_block_tip_witness :
    (highest_accepted_block c6Store = none ↔ c6Store.canonical_chain = []) ∧
    highest_accepted_block (extend_canonical_chain c6Store ⟨7, 8⟩) =
      some ⟨7, 8⟩ :=
  ⟨(highest_accepted_block_tip c6Store 7 8).1,
   (highest_accepted_block_tip c6Store 7 8).2 (by decide)
     (by
       intro t ht
       have h0 : some (⟨3, 4⟩ : GlobalBlockId) = some t := by
         rw [← ht]; rfl
       cases h0
       decide)⟩

/-! ## C4: stale, empty and heartbeat responses are discarded -/

/-- C4: when the configuration queue is pending and the response stream
delivers a response whose `stream_id` differs from the session's, or whose
`message` is empty, or whose message is a `Heartbeat`, the poll yields no
`DataMessage`: it discards the response, re-schedules the task (`woke`) and
returns not-ready, leaving the `stream_id` unchanged; in particular
heartbeats never appear as `DataMessage`s. -/
theorem discarded_responses_yield_pending {F D : Type}
    (dec : List Nat → Option D) (encF : F → List Nat) (sid : Nat)
    (resp : StreamDataResponse) (trySendOk : Bool)
    (hbad : resp.stream_id ≠ sid ∨ resp.message = none ∨
      resp.message = some .heartbeat) :
    pollNext (F := F) dec encF sid .pending (.ready (some (.ok resp)))
      trySendOk = ⟨.pending, sid, none, true⟩ := by
  unfold pollNext
  by_cases hid : resp.stream_id = sid
  · rcases hbad with h | h | h
    · exact absurd hid h
    · simp [hid, h]
    · simp [hid, h]
  · simp [hid]

theorem discarded_responses_yield_pending_witness :
    pollNext (F := Nat) (D := Nat) (fun _ => none) (fun _ => []) 0 .pending
      (.ready (some (.ok ⟨0, some .heartbeat⟩))) true =
      ⟨.pending, 0, none, true⟩ :=
  discarded_responses_yield_pending (fun _ => none) (fun _ => []) 0
    ⟨0, some .heartbeat⟩ true (Or.inr (Or.inr rfl))

/-! ## C7: configuration handling increments and tags the stream id -/

theorem foldl_configStep_snd {F D : Type} (dec : List Nat → Option D)
    (encF : F → List Nat) :
    ∀ (cfgs : List (Configuration F)) (sid : Nat)
      (rs : List StreamDataRequest),
      (cfgs.foldl (configStepAcc (D := D) dec encF) (sid, rs)).2 =
        rs ++ (cfgs.foldl (configStepAcc (D := D) dec encF) (sid, [])).2
  | [], sid, rs => by simp
  | c :: rest, sid, rs => by
    simp only [List.foldl_cons]
    have hc : ∀ rs' : List StreamDataRequest,
        configStepAcc (D := D) dec encF (sid, rs') c =
          ((configStepAcc (D := D) dec encF (sid, []) c).1,
           rs' ++ (configStepAcc (D := D) dec encF (sid, []) c).2) := by
      intro rs'
      simp [configStepAcc]
    rw [hc rs, hc []]
    rw [foldl_configStep_snd dec encF rest _ _,
      foldl_configStep_snd dec encF rest _
        ([] ++ (configStepAcc (D := D) dec encF (sid, []) c).2)]
    simp

theorem foldl_configStep_get {F D : Type} (dec : List Nat → Option D)
    (encF : F → List Nat) :
    ∀ (cfgs : List (Configuration F)) (sid : Nat) (k : Nat)
      (cfg' : Configuration F),
      cfgs[k]? = some cfg' → sid + k + 1 < U64_MOD →
      (cfgs.foldl (configStepAcc (D := D) dec encF) (sid, [])).2[k]? =
        some ⟨some (sid + k + 1), some cfg'.batch_size,
          cfg'.starting_cursor, cfg'.finality.map (fun f => f.toI32),
          encF cfg'.filter⟩
  | [], _, k, _, h, _ => by simp at h
  | c :: rest, sid, 0, cfg', h, hlt => by
    simp only [List.getElem?_cons_zero, Option.some.injEq] at h
    subst h
    simp only [List.foldl_cons]
    have hsid : (sid + 1) % U64_MOD = sid + 1 :=
      Nat.mod_eq_of_lt (by omega)
    have hstep : configStepAcc (D := D) dec encF (sid, []) c =
        (sid + 1, [⟨some (sid + 1), some c.batch_size,
          c.starting_cursor, c.finality.map (fun f => f.toI32),
          encF c.filter⟩]) := by
      simp [configStepAcc, pollNext, hsid]
    rw [hstep, foldl_configStep_snd]
    simp
  | c :: rest, sid, k + 1, cfg', h, hlt => by
    simp only [List.getElem?_cons_succ] at h
    simp only [List.foldl_cons]
    have hsid : (sid + 1) % U64_MOD = sid + 1 :=
      Nat.mod_eq_of_lt (by omega)
    have hstep : configStepAcc (D := D) dec encF (sid, []) c =
        (sid + 1, [⟨some (sid + 1), some c.batch_size,
          c.starting_cursor, c.finality.map (fun f => f.toI32),
          encF c.filter⟩]) := by
      simp [configStepAcc, pollNext, hsid]
    rw [hstep, foldl_configStep_snd]
    have hrec := foldl_configStep_get dec encF rest (sid + 1) k cfg' h
      (by omega)
    have harith : sid + 1 + k + 1 = sid + (k + 1) + 1 := by omega
    rw [harith] at hrec
    simpa using hrec

/-- C7: drawing a configuration increments `stream_id` by exactly one
(wrapping as a u64), enqueues a `StreamDataRequest` carrying the new
`stream_id` together with the configuration's `batch_size`,
`starting_cursor`, `finality` and encoded filter, re-schedules the task and
returns not-ready; and starting from `stream_id = 0`, the k-th
configuration (1-indexed) produces the request tagged `k`. -/
theorem configuration_poll_step {F D : Type} (dec : List Nat → Option D)
    (encF : F → List Nat) (sid : Nat) (cfg : Configuration F)
    (innerPoll : Poll (Option (Except Nat StreamDataResponse)))
    (cfgs : List (Configuration F)) :
    (pollNext (D := D) dec encF sid (.ready (some cfg)) innerPoll true =
      ⟨.pending, (sid + 1) % U64_MOD,
       some ⟨some ((sid + 1) % U64_MOD), some cfg.batch_size,
         cfg.starting_cursor, cfg.finality.map (fun f => f.toI32),
         encF cfg.filter⟩, true⟩) ∧
    (∀ k cfg', cfgs[k]? = some cfg' → k + 1 < U64_MOD →
      (processConfigs (D := D) dec encF cfgs).2[k]? =
        some ⟨some (k + 1), some cfg'.batch_size, cfg'.starting_cursor,
          cfg'.finality.map (fun f => f.toI32), encF cfg'.filter⟩) := by
  constructor
  · rfl
  · intro k cfg' hk hlt
    have := foldl_configStep_get dec encF cfgs 0 k cfg' hk (by omega)
    simpa [processConfigs] using this

theorem configuration_poll_step_witness :
    pollNext (F := Nat) (D := Nat) (fun _ => none) (fun f => [f]) 0
      (.ready (some ⟨10, none, some .pending, 42⟩)) .pending true =
      ⟨.pending, 1, some ⟨some 1, some 10, none, some 1, [42]⟩, true⟩ ∧
    (processConfigs (F := Nat) (D := Nat) (fun _ => none) (fun f => [f])
      [⟨10, none, some .pending, 42⟩]).2[0]? =
      some ⟨some 1, some 10, none, some 1, [42]⟩ :=
  ⟨(configuration_poll_step (fun _ => none) (fun f => [f]) 0
      ⟨10, none, some .pending, 42⟩ .pending []).1,
   (configuration_poll_step (fun _ => none) (fun f => [f]) 0
      ⟨10, none, some .pending, 42⟩ .pending
      [⟨10, none, some .pending, 42⟩]).2 0 ⟨10, none, some .pending, 42⟩
     rfl (by decide)⟩

/-! ## C8: batches decode with silent per-element drop -/

theorem decode_filter_map_aux {D : Type} (dec : List Nat → Option D) :
    ∀ l : List (List Nat),
      (l.filter (fun b => (dec b).isSome)).map dec =
        ((l.map (fun b => dec b)).filterMap (fun b => b)).map some
  | [] => rfl
  | b :: rest => by
    match hdec : dec b with
    | some d =>
      simp [List.filter_cons, List.filterMap_cons, hdec,
        decode_filter_map_aux dec rest]
    | none =>
      simp [List.filter_cons, List.filterMap_cons, hdec,
        decode_filter_map_aux dec rest]

/-- C8: an accepted `Data` response (matching `stream_id`) yields a
`DataMessage::Data` whose batch is exactly the subsequence of the
response's byte buffers that decode successfully, each decoded and kept in
order; buffers failing to decode are dropped without producing an error
item. -/
theorem data_batch_silent_decode {F D : Type} (dec : List Nat → Option D)
    (encF : F → List Nat) (sid : Nat) (resp : StreamDataResponse)
    (d : DataPayload) (trySendOk : Bool)
    (hid : resp.stream_id = sid) (hmsg : resp.message = some (.data d)) :
    pollNext (F := F) dec encF sid .pending (.ready (some (.ok resp)))
      trySendOk =
      ⟨.ready (some (.ok (.data d.cursor (d.end_cursor.getD default)
        ((DataFinality.from_i32 d.finality).getD default)
        ((d.data.map (fun b => dec b)).filterMap (fun b => b))))),
       sid, none, false⟩ ∧
    (d.data.filter (fun b => (dec b).isSome)).map dec =
      ((d.data.map (fun b => dec b)).filterMap (fun b => b)).map some := by
  subst hid
  exact ⟨by simp [pollNext, hmsg], decode_filter_map_aux dec d.data⟩

theorem data_batch_silent_decode_witness :
    pollNext (F := Nat) (D := Nat) (fun b => b.head?) (fun _ => []) 0
      .pending
      (.ready (some (.ok ⟨0, some (.data ⟨[[1], [], [2]], none, none, 0⟩)⟩)))
      true =
      ⟨.ready (some (.ok (.data none ⟨0, []⟩ .unspecified [1, 2]))), 0, none,
       false⟩ ∧
    ([[1], [], [2]].filter
        (fun b => ((fun b => List.head? b) b).isSome)).map
        (fun b => List.head? b) =
      (([[1], [], [2]].map (fun b => List.head? b)).filterMap
        (fun b => b)).map some :=
  data_batch_silent_decode (fun b => b.head?) (fun _ => []) 0
    ⟨0, some (.data ⟨[[1], [], [2]], none, none, 0⟩)⟩
    ⟨[[1], [], [2]], none, none, 0⟩ true rfl rfl

/-! ## C9: missing end cursor and unknown finality fall back to defaults -/

/-- C9: for an accepted `Data` response, each fallback holds independently
and no error is raised: if `end_cursor` is absent the yielded
`DataMessage::Data` carries the default `Cursor` (whatever the finality
is), and if the finality i32 names no known variant the message carries
the default finality `Unspecified` (whatever the end cursor is). -/
theorem data_defaults_on_missing {F D : Type} (dec : List Nat → Option D)
    (encF : F → List Nat) (sid : Nat) (resp : StreamDataResponse)
    (d : DataPayload) (trySendOk : Bool)
    (hid : resp.stream_id = sid) (hmsg : resp.message = some (.data d)) :
    (d.end_cursor = none →
      pollNext (F := F) dec encF sid .pending (.ready (some (.ok resp)))
        trySendOk =
        ⟨.ready (some (.ok (.data d.cursor ⟨0, []⟩
          ((DataFinality.from_i32 d.finality).getD default)
          ((d.data.map (fun b => dec b)).filterMap (fun b => b))))),
         sid, none, false⟩) ∧
    (DataFinality.from_i32 d.finality = none →
      pollNext (F := F) dec encF sid .pending (.ready (some (.ok resp)))
        trySendOk =
        ⟨.ready (some (.ok (.data d.cursor (d.end_cursor.getD default)
          .unspecified
          ((d.data.map (fun b => dec b)).filterMap (fun b => b))))),
         sid, none, false⟩) := by
  subst hid
  constructor
  · intro hend
    simp [pollNext, hmsg, hend]
    rfl
  · intro hfin
    simp [pollNext, hmsg, hfin]
    rfl

theorem data_defaults_on_missing_witness :
    pollNext (F := Nat) (D := Nat) (fun b => b.head?) (fun _ => []) 0
      .pending
      (.ready (some (.ok ⟨0, some (.data ⟨[[5]], none, none, 2⟩)⟩))) true =
      ⟨.ready (some (.ok (.data none ⟨0, []⟩ .acceptedOnL2 [5]))), 0, none,
       false⟩ ∧
    pollNext (F := Nat) (D := Nat) (fun b => b.head?) (fun _ => []) 0
      .pending
      (.ready (some (.ok
        ⟨0, some (.data ⟨[[5]], none, some ⟨1, [2]⟩, 9⟩)⟩))) true =
      ⟨.ready (some (.ok (.data none ⟨1, [2]⟩ .unspecified [5]))), 0, none,
       false⟩ :=
  ⟨(data_defaults_on_missing (fun b => b.head?) (fun _ => []) 0
      ⟨0, some (.data ⟨[[5]], none, none, 2⟩)⟩ ⟨[[5]], none, none, 2⟩ true
      rfl rfl).1 rfl,
   (data_defaults_on_missing (fun b => b.head?) (fun _ => []) 0
      ⟨0, some (.data ⟨[[5]], none, some ⟨1, [2]⟩, 9⟩)⟩
      ⟨[[5]], none, some ⟨1, [2]⟩, 9⟩ true rfl rfl).2 (by decide)⟩

/-! ## C10: missing hasher keys yield no bloom, not an error -/

/-- C10: a persisted `RawBloom` whose `bytes` are non-empty but whose
`hasher_keys` are absent reconstructs to no filter — `read_receipts`
returns `none` for the bloom rather than an error — the same result as
when `bytes` is empty. -/
theorem raw_bloom_missing_keys (s : Store) (id : GlobalBlockId)
    (receipts : List TransactionReceipt) (raw : RawBloom)
    (hrow : tableGet s.block_receipts id = some ⟨receipts, some raw⟩)
    (hne : raw.bytes ≠ []) (hk : raw.hasher_keys = none) :
    read_receipts s id = (receipts, none) ∧
    RawBloom.toBloom raw = none ∧
    (∀ raw2 : RawBloom, raw2.bytes = [] → RawBloom.toBloom raw2 = none) := by
  have htb : RawBloom.toBloom raw = none := by
    have hempty : raw.bytes.isEmpty = false := by
      simpa [List.isEmpty_iff] using hne
    unfold RawBloom.toBloom
    rw [hk, hempty]
    simp
  refine ⟨?_, htb, ?_⟩
  · unfold read_receipts
    rw [hrow]
    simp [htb]
  · intro raw2 h2
    unfold RawBloom.toBloom
    simp [h2]

/-- A store with one receipts row whose bloom has bytes `[1]` but no
hasher keys. -/
def c10Store : Store :=
  ⟨[], [], [], [], [(⟨0, 0⟩, ⟨[], some ⟨[1], 8, 2, none⟩⟩)], []⟩

theorem raw_bloom_missing_keys_witness :
    read_receipts c10Store ⟨0, 0⟩ = ([], none) :=
  (raw_bloom_missing_keys c10Store ⟨0, 0⟩ [] ⟨[1], 8, 2, none⟩ (by decide)
    (by decide) rfl).1

/-! ## C5: bloom build and round-trip through `RawBloom` -/

theorem foldl_set_length : ∀ (js : List Nat) (bm : List Bool),
    (js.foldl (fun bm j => bm.set j true) bm).length = bm.length
  | [], _ => rfl
  | j :: js, bm => by
    rw [List.foldl_cons, foldl_set_length js, List.length_set]

theorem foldl_set_getD_mono : ∀ (js : List Nat) (bm : List Bool) (i : Nat),
    bm.getD i false = true →
    (js.foldl (fun bm j => bm.set j true) bm).getD i false = true
  | [], _, _, h => h
  | j :: js, bm, i, h => by
    rw [List.foldl_cons]
    apply foldl_set_getD_mono js
    rcases eq_or_ne j i with rfl | hne
    · have hlen : j < bm.length := by
        by_contra hge
        rw [List.getD_eq_getElem?_getD,
          List.getElem?_eq_none (Nat.le_of_not_lt hge)] at h
        simp at h
      rw [List.getD_eq_getElem?_getD, List.getElem?_set_self hlen]
      rfl
    · rw [List.getD_eq_getElem?_getD, List.getElem?_set_ne hne,
        ← List.getD_eq_getElem?_getD]
      exact h

theorem foldl_set_getD_mem : ∀ (js : List Nat) (bm : List Bool) (j : Nat),
    j ∈ js → j < bm.length →
    (js.foldl (fun bm j => bm.set j true) bm).getD j false = true
  | [], _, _, h, _ => by simp at h
  | j0 :: js, bm, j, hmem, hlen => by
    rw [List.foldl_cons]
    rcases List.mem_cons.mp hmem with rfl | hmem'
    · apply foldl_set_getD_mono
      rw [List.getD_eq_getElem?_getD, List.getElem?_set_self hlen]
      rfl
    · exact foldl_set_getD_mem js _ j hmem'
        (by rw [List.length_set]; exact hlen)

theorem insert_bitmap_length (hf : Nat → SipKeys → FieldElement → Nat)
    (b : Bloom) (x : FieldElement) :
    (b.insert hf x).bitmap.length = b.bitmap.length :=
  foldl_set_length _ _

theorem insert_bitIndex (hf : Nat → SipKeys → FieldElement → Nat)
    (b : Bloom) (x y : FieldElement) (i : Nat) :
    (b.insert hf y).bitIndex hf i x = b.bitIndex hf i x := by
  unfold Bloom.bitIndex
  rw [insert_bitmap_length]
  rfl

theorem contains_insert_mono (hf : Nat → SipKeys → FieldElement → Nat)
    (b : Bloom) (x y : FieldElement) (h : b.contains hf x = true) :
    (b.insert hf y).contains hf x = true := by
  unfold Bloom.contains at h ⊢
  rw [List.all_eq_true] at h ⊢
  intro i hi
  rw [insert_bitIndex]
  have hbase := h i hi
  simp only [Bloom.insert, Bloom.setBits]
  exact foldl_set_getD_mono _ _ _ hbase

theorem contains_insert_self (hf : Nat → SipKeys → FieldElement → Nat)
    (b : Bloom) (x : FieldElement) (hpos : 0 < b.bitmap.length) :
    (b.insert hf x).contains hf x = true := by
  unfold Bloom.contains
  rw [List.all_eq_true]
  intro i hi
  rw [insert_bitIndex]
  simp only [Bloom.insert, Bloom.setBits]
  apply foldl_set_getD_mem
  · exact List.mem_map.mpr ⟨i, hi, rfl⟩
  · exact Nat.mod_lt _ hpos

/-- Inserting a list of elements one by one (the flattened form of the
`write_receipts` population loops). -/
def insertAll (hf : Nat → SipKeys → FieldElement → Nat) (b : Bloom)
    (xs : List FieldElement) : Bloom :=
  xs.foldl (fun b x => b.insert hf x) b

theorem insertAll_k (hf : Nat → SipKeys → FieldElement → Nat) :
    ∀ (xs : List FieldElement) (b : Bloom), (insertAll hf b xs).k = b.k
  | [], _ => rfl
  | x :: xs, b => insertAll_k hf xs (b.insert hf x)

theorem insertAll_sip_keys (hf : Nat → SipKeys → FieldElement → Nat) :
    ∀ (xs : List FieldElement) (b : Bloom),
      (insertAll hf b xs).sip_keys = b.sip_keys
  | [], _ => rfl
  | x :: xs, b => insertAll_sip_keys hf xs (b.insert hf x)

theorem insertAll_bitmap_length (hf : Nat → SipKeys → FieldElement → Nat) :
    ∀ (xs : List FieldElement) (b : Bloom),
      (insertAll hf b xs).bitmap.length = b.bitmap.length
  | [], _ => rfl
  | x :: xs, b => by
    rw [show insertAll hf b (x :: xs) = insertAll hf (b.insert hf x) xs
      from rfl]
    rw [insertAll_bitmap_length hf xs, insert_bitmap_length]

theorem contains_insertAll_mono (hf : Nat → SipKeys → FieldElement → Nat) :
    ∀ (xs : List FieldElement) (b : Bloom) (x : FieldElement),
      b.contains hf x = true → (insertAll hf b xs).contains hf x = true
  | [], _, _, h => h
  | y :: ys, b, x, h =>
    contains_insertAll_mono hf ys _ x (contains_insert_mono hf b x y h)

theorem contains_insertAll_mem (hf : Nat → SipKeys → FieldElement → Nat) :
    ∀ (xs : List FieldElement) (b : Bloom) (x : FieldElement),
      x ∈ xs → 0 < b.bitmap.length →
      (insertAll hf b xs).contains hf x = true
  | [], _, _, h, _ => by simp at h
  | y :: ys, b, x, hmem, hpos => by
    rcases List.mem_cons.mp hmem with rfl | hmem'
    · exact contains_insertAll_mono hf ys _ x
        (contains_insert_self hf b x hpos)
    · exact contains_insertAll_mem hf ys _ x hmem'
        (by rw [insert_bitmap_length]; exact hpos)

theorem insertAll_append (hf : Nat → SipKeys → FieldElement → Nat)
    (b : Bloom) (l1 l2 : List FieldElement) :
    insertAll hf b (l1 ++ l2) = insertAll hf (insertAll hf b l1) l2 :=
  List.foldl_append _ _ _ _

theorem eventFold_eq (hf : Nat → SipKeys → FieldElement → Nat) :
    ∀ (events : List Event) (b : Bloom),
      events.foldl (fun bloom event =>
        let bloom :=
          match event.from_address with
          | some addr => bloom.insert hf addr
          | none => bloom
        event.keys.foldl (fun bloom key => bloom.insert hf key) bloom) b =
      insertAll hf b
        (events.flatMap (fun event => event.from_address.toList ++
          event.keys))
  | [], _ => rfl
  | e :: es, b => by
    rw [List.foldl_cons,
      show (e :: es).flatMap
          (fun event => event.from_address.toList ++ event.keys) =
        (e.from_address.toList ++ e.keys) ++
          es.flatMap (fun event => event.from_address.toList ++ event.keys)
        from rfl,
      insertAll_append]
    have hstep :
        (e.keys.foldl (fun bloom key => bloom.insert hf key)
          (match e.from_address with
           | some addr => b.insert hf addr
           | none => b)) =
        insertAll hf b (e.from_address.toList ++ e.keys) := by
      match e.from_address with
      | some addr => rfl
      | none => rfl
    simp only []
    rw [← hstep]
    exact eventFold_eq hf es _

theorem receiptsBloom_eq_insertAll
    (hf : Nat → SipKeys → FieldElement → Nat) (kChoice : Nat → Nat → Nat)
    (keys : SipKeys) :
    ∀ (receipts : List TransactionReceipt) (b : Bloom),
      receipts.foldl (fun bloom receipt =>
        receipt.events.foldl (fun bloom event =>
          let bloom :=
            match event.from_address with
            | some addr => bloom.insert hf addr
            | none => bloom
          event.keys.foldl (fun bloom key => bloom.insert hf key) bloom)
          bloom) b =
      insertAll hf b (insertedElements receipts)
  | [], _ => rfl
  | r :: rs, b => by
    rw [List.foldl_cons,
      show insertedElements (r :: rs) =
        (r.events.flatMap (fun event => event.from_address.toList ++
          event.keys)) ++ insertedElements rs from rfl,
      insertAll_append]
    rw [eventFold_eq hf r.events b]
    exact receiptsBloom_eq_insertAll hf kChoice keys rs _

theorem byteToBits_byteOfBits (b0 b1 b2 b3 b4 b5 b6 b7 : Bool) :
    byteToBits (byteOfBits b0 b1 b2 b3 b4 b5 b6 b7) =
      [b0, b1, b2, b3, b4, b5, b6, b7] := by
  cases b0 <;> cases b1 <;> cases b2 <;> cases b3 <;> cases b4 <;>
    cases b5 <;> cases b6 <;> cases b7 <;> rfl

theorem unpackBits_packBits : ∀ (m : Nat) (l : List Bool),
    l.length = 8 * m → unpackBits (packBits l) = l
  | 0, l, h => by
    have h0 : l = [] := List.length_eq_zero.mp (by omega)
    subst h0
    rfl
  | m + 1, l, h => by
    match l with
    | [] => simp at h
    | [b0] => simp at h; omega
    | [b0, b1] => simp at h; omega
    | [b0, b1, b2] => simp at h; omega
    | [b0, b1, b2, b3] => simp at h; omega
    | [b0, b1, b2, b3, b4] => simp at h; omega
    | [b0, b1, b2, b3, b4, b5] => simp at h; omega
    | [b0, b1, b2, b3, b4, b5, b6] => simp at h; omega
    | b0 :: b1 :: b2 :: b3 :: b4 :: b5 :: b6 :: b7 :: rest =>
      have hrest : rest.length = 8 * m := by
        simp only [List.length_cons] at h
        omega
      rw [show packBits (b0 :: b1 :: b2 :: b3 :: b4 :: b5 :: b6 :: b7 ::
          rest) =
        byteOfBits b0 b1 b2 b3 b4 b5 b6 b7 :: packBits rest from rfl]
      rw [show unpackBits (byteOfBits b0 b1 b2 b3 b4 b5 b6 b7 ::
          packBits rest) =
        byteToBits (byteOfBits b0 b1 b2 b3 b4 b5 b6 b7) ++
          unpackBits (packBits rest) from rfl]
      rw [byteToBits_byteOfBits, unpackBits_packBits m rest hrest]
      rfl

theorem toBloom_toRaw (b : Bloom) (m : Nat) (hm : b.bitmap.length = 8 * m)
    (hpos : 0 < m) : RawBloom.toBloom b.toRaw = some b := by
  obtain ⟨bitmap, k, ⟨⟨k00, k01⟩, k10, k11⟩⟩ := b
  simp only [Bloom.toRaw] at *
  have hroundtrip : unpackBits (packBits bitmap) = bitmap :=
    unpackBits_packBits m bitmap hm
  have hne : packBits bitmap ≠ [] := by
    intro h0
    rw [h0] at hroundtrip
    have : bitmap.length = 0 := by rw [← hroundtrip]; rfl
    omega
  have hempty : (packBits bitmap).isEmpty = false := by
    simpa [List.isEmpty_iff] using hne
  unfold RawBloom.toBloom
  simp only [hempty, Bool.false_eq_true, if_false]
  rw [hroundtrip]
  rw [List.take_length]

/-- C5: the bloom built by `write_receipts` (256 bits, item estimate
`2·len(receipts)+1`, populated with each event's `from_address` when set
and then its keys), once serialized to `RawBloom` and reconstructed,
reports `contains(x) = true` for every inserted element; the `RawBloom`
records the same bitmap bytes, bit count, hash-function count and sip key
pairs as the original filter.  `hf` (the SipHash-1-3 family), `kChoice`
(the crate's internal hash-count derivation) and `keys` (the random sip
keys) are parameters of the model. -/
theorem write_receipts_bloom_roundtrip
    (hf : Nat → SipKeys → FieldElement → Nat) (kChoice : Nat → Nat → Nat)
    (keys : SipKeys) (s : Store) (id : GlobalBlockId)
    (receipts : List TransactionReceipt) :
    tableGet (write_receipts hf kChoice keys s id receipts).block_receipts
        id =
      some ⟨receipts, some (receiptsBloom hf kChoice keys receipts).toRaw⟩ ∧
    (receiptsBloom hf kChoice keys receipts).toRaw.bytes =
      packBits (receiptsBloom hf kChoice keys receipts).bitmap ∧
    (receiptsBloom hf kChoice keys receipts).toRaw.bitmap_bits =
      (receiptsBloom hf kChoice keys receipts).bitmap.length ∧
    (receiptsBloom hf kChoice keys receipts).toRaw.number_of_hash_functions
      = (receiptsBloom hf kChoice keys receipts).k ∧
    (receiptsBloom hf kChoice keys receipts).toRaw.hasher_keys =
      some ⟨keys.1.1, keys.1.2, keys.2.1, keys.2.2⟩ ∧
    RawBloom.toBloom (receiptsBloom hf kChoice keys receipts).toRaw =
      some (receiptsBloom hf kChoice keys receipts) ∧
    ∀ x ∈ insertedElements receipts, ∀ b',
      RawBloom.toBloom (receiptsBloom hf kChoice keys receipts).toRaw =
        some b' →
      b'.contains hf x = true := by
  have hB : receiptsBloom hf kChoice keys receipts =
      insertAll hf (Bloom.new 256 (receipts.length * 2 + 1) kChoice keys)
        (insertedElements receipts) :=
    receiptsBloom_eq_insertAll hf kChoice keys receipts _
  have hlen : (receiptsBloom hf kChoice keys receipts).bitmap.length =
      256 := by
    rw [hB, insertAll_bitmap_length]
    exact List.length_replicate 256 false
  have hkeys : (receiptsBloom hf kChoice keys receipts).sip_keys = keys := by
    rw [hB, insertAll_sip_keys]
    rfl
  have hround : RawBloom.toBloom
      (receiptsBloom hf kChoice keys receipts).toRaw =
      some (receiptsBloom hf kChoice keys receipts) :=
    toBloom_toRaw _ 32 (by rw [hlen]) (by omega)
  refine ⟨tableGet_tablePut_self _ _ _, rfl, rfl, rfl, ?_, hround, ?_⟩
  · unfold Bloom.toRaw
    rw [hkeys]
  · intro x hx b' hb'
    rw [hround] at hb'
    cases hb'
    rw [hB]
    apply contains_insertAll_mem hf _ _ x hx
    show 0 < (List.replicate 256 false).length
    rw [List.length_replicate]
    omega

/-- The empty store. -/
def c5Store : Store := ⟨[], [], [], [], [], []⟩

/-- A concrete hash family for the witness. -/
def c5hf : Nat → SipKeys → FieldElement → Nat := fun i _ x => x + 3 * i + 1

/-- One receipt with one event: `from_address = 5`, `keys = [7, 9]`. -/
def c5Receipts : List TransactionReceipt := [⟨[⟨some 5, [7, 9]⟩]⟩]

theorem write_receipts_bloom_roundtrip_witness :
    RawBloom.toBloom
        (receiptsBloom c5hf (fun _ _ => 2) ((1, 2), 3, 4) c5Receipts).toRaw =
      some (receiptsBloom c5hf (fun _ _ => 2) ((1, 2), 3, 4) c5Receipts) ∧
    (∀ b', RawBloom.toBloom
        (receiptsBloom c5hf (fun _ _ => 2) ((1, 2), 3, 4) c5Receipts).toRaw =
          some b' →
      b'.contains c5hf 5 = true) :=
  ⟨(write_receipts_bloom_roundtrip c5hf (fun _ _ => 2) ((1, 2), 3, 4)
      c5Store ⟨0, 0⟩ c5Receipts).2.2.2.2.2.1,
   (write_receipts_bloom_roundtrip c5hf (fun _ _ => 2) ((1, 2), 3, 4)
      c5Store ⟨0, 0⟩ c5Receipts).2.2.2.2.2.2 5 (by decide)⟩

end Dna
